import Mathlib

/-
Shallow embedding of src/aider/api.py: a single-process HTTP facade exposing
an aider coding session as JSON POST endpoints.  Each Python construct used
by the claims is translated into an executable Lean definition; external
collaborators (the coder engine, the scraper, the shell, git) are passed in
as explicit parameters or oracle functions.
-/

set_option autoImplicit false

namespace Aider

/-- JSON-like values as they occur in this API's payloads and results.
Handler results are association lists of field name to value (`JObj`). -/
inductive JValue where
  | null : JValue
  | str : String → JValue
  | jnat : Nat → JValue
  | strList : List String → JValue
  | objList : List (List (String × JValue)) → JValue

/-- A JSON object: ordered field list, no duplicate keys are ever built. -/
abbrev JObj := List (String × JValue)

/-- Field lookup in a JSON object (Python `"k" in d` / `d["k"]`). -/
def getField : JObj → String → Option JValue
  | [], _ => none
  | (k, v) :: rest, key => if k = key then some v else getField rest key

/-- The `{"error": msg}` result shape used by every handler. -/
def errObj (msg : String) : JObj := [("error", JValue.str msg)]

/-- Encode a Python value that is either `None` or a string. -/
def optStr : Option String → JValue
  | none => JValue.null
  | some s => JValue.str s

/-
CaptureIO (src/aider/api.py lines 13-28).  The Python class overrides
`tool_output` / `tool_error` of aider's InputOutput, buffering messages in
`self.lines` and always forwarding to `super()`.  The `forwarded` component
records the messages passed on to the underlying default sink.
-/

/-- State of one CaptureIO instance: the capture buffer `lines` and the
trace of messages forwarded to the wrapped default sink via `super()`. -/
structure CaptureIOState where
  lines : List String
  forwarded : List String
deriving DecidableEq

/-- CaptureIO.tool_output: buffer `msg` unless `log_only`, always forward. -/
def tool_output (st : CaptureIOState) (msg : String) (log_only : Bool) : CaptureIOState :=
  { lines := if log_only then st.lines else st.lines ++ [msg],
    forwarded := st.forwarded ++ [msg] }

/-- CaptureIO.tool_error: buffer `msg` and forward it. -/
def tool_error (st : CaptureIOState) (msg : String) : CaptureIOState :=
  { lines := st.lines ++ [msg], forwarded := st.forwarded ++ [msg] }

/-- CaptureIO.get_captured_lines: return the buffer and clear it. -/
def get_captured_lines (st : CaptureIOState) : List String × CaptureIOState :=
  (st.lines, { st with lines := [] })

/-- One emission on the CaptureIO channel. -/
inductive IOOp where
  | output : String → Bool → IOOp
  | error : String → IOOp
deriving DecidableEq

/-- Run a sequence of emissions against a CaptureIO state. -/
def runIOOps (st : CaptureIOState) : List IOOp → CaptureIOState
  | [] => st
  | IOOp.output msg lo :: rest => runIOOps (tool_output st msg lo) rest
  | IOOp.error msg :: rest => runIOOps (tool_error st msg) rest

/-- The messages an emission sequence should leave in the buffer: every
error message and every non-log-only output, in emission order. -/
def capturedOf (ops : List IOOp) : List String :=
  ops.filterMap fun op =>
    match op with
    | IOOp.output msg lo => if lo then none else some msg
    | IOOp.error msg => some msg

/-- Every message carried by an emission, buffered or not. -/
def allMessages (ops : List IOOp) : List String :=
  ops.map fun op =>
    match op with
    | IOOp.output msg _ => msg
    | IOOp.error msg => msg

/-
State (src/aider/api.py lines 30-41): a first-write-wins registry.
`keys` is the initialized-key set; `attrs` records the `setattr` bindings.
-/

/-- The process-wide State object: initialized-key set plus attribute
bindings made by `setattr(self, key, val)`. -/
structure State where
  keys : List String
  attrs : List (String × JValue)

/-- State.init: bind `key` to `val` only when `key` is not yet in `keys`;
returns whether it performed the initialization (Python: True vs None). -/
def State.init (s : State) (key : String) (val : JValue) : State × Bool :=
  if key ∈ s.keys then (s, false)
  else ({ keys := key :: s.keys, attrs := (key, val) :: s.attrs }, true)

/-- Attribute read (`getattr`): the most recent binding of `key`. -/
def State.getattr (s : State) (key : String) : Option JValue :=
  getField s.attrs key

/-- Run a sequence of `init` calls, discarding the returned flags. -/
def runInits (s : State) : List (String × JValue) → State
  | [] => s
  | (k, v) :: rest => runInits (s.init k v).1 rest

/-
Request dispatch (src/aider/api.py lines 76-126).
-/

/-- An HTTP response as written by the handler: status code plus the JSON
object serialized into the body. -/
structure HttpResponse where
  status : Nat
  body : JObj

/-- send_error_response (lines 76-83): status plus body `{"error": message}`. -/
def send_error_response (status_code : Nat) (message : JValue) : HttpResponse :=
  { status := status_code, body := [("error", message)] }

/-- Exceptions that escape a Python call. -/
inductive PyExn where
  | jsonDecodeError : String → PyExn
  | typeError : String → PyExn
deriving DecidableEq

/-- Whether a handler method of AiderAPIHandler declares a payload
parameter besides `self`. -/
inductive Arity where
  | withPayload : Arity
  | selfOnly : Arity
deriving DecidableEq

/-- One row of the `handlers` dict: the Python method name and the arity
its `def` declares. -/
structure RouteEntry where
  pyname : String
  arity : Arity

/-- The `handlers` route table of do_POST (lines 90-104), with each
handler's declared arity read off its `def` (lines 128-246). -/
def handlers_table : String → Option RouteEntry
  | "/chat" => some { pyname := "handle_chat", arity := Arity.withPayload }
  | "/get_model" => some { pyname := "handle_get_model", arity := Arity.selfOnly }
  | "/add_files" => some { pyname := "handle_add_files", arity := Arity.withPayload }
  | "/add_web_page" => some { pyname := "handle_add_web_page", arity := Arity.withPayload }
  | "/clear_chat_history" => some { pyname := "handle_clear_chat_history", arity := Arity.selfOnly }
  | "/run_command" => some { pyname := "handle_run_command", arity := Arity.withPayload }
  | "/undo" => some { pyname := "handle_undo", arity := Arity.withPayload }
  | "/get_chat_history" => some { pyname := "handle_get_chat_history", arity := Arity.selfOnly }
  | "/get_file_list" => some { pyname := "handle_get_file_list", arity := Arity.selfOnly }
  | "/get_file_content" => some { pyname := "handle_get_file_content", arity := Arity.withPayload }
  | "/commit" => some { pyname := "handle_commit", arity := Arity.selfOnly }
  | "/lint" => some { pyname := "handle_lint", arity := Arity.withPayload }
  | "/test" => some { pyname := "handle_test", arity := Arity.withPayload }
  | _ => none

/-- CPython's message for calling a bound one-parameter method with an
extra positional argument. -/
def type_error_message (pyname : String) : String :=
  "AiderAPIHandler." ++ pyname ++ "() takes 1 positional argument but 2 were given"

/-- Response shaping (lines 109-126): a handler result carrying an
`"error"` field becomes a 400 via send_error_response, which keeps only
that field; any other result is sent back whole with status 200. -/
def respond (response : JObj) : HttpResponse :=
  match getField response "error" with
  | some v => send_error_response 400 v
  | none => { status := 200, body := response }

/-- do_POST (lines 85-126).  `parsed` is the outcome of
`json.loads(post_data)`: do_POST has no try/except around it, so a parse
failure propagates as an uncaught JSONDecodeError.  `run` is an oracle
giving the result each payload-taking handler body returns; a route whose
method declares no payload parameter raises TypeError at the call
`handler(data)` before any handler body runs. -/
def do_POST (path : String) (parsed : Except String JObj)
    (run : String → JObj → JObj) : Except PyExn HttpResponse :=
  match parsed with
  | Except.error msg => Except.error (PyExn.jsonDecodeError msg)
  | Except.ok data =>
    match handlers_table path with
    | none => Except.ok (send_error_response 404 (JValue.str "Not Found"))
    | some entry =>
      match entry.arity with
      | Arity.selfOnly => Except.error (PyExn.typeError (type_error_message entry.pyname))
      | Arity.withPayload => Except.ok (respond (run path data))

/-
handle_run_command (lines 188-198).
-/

/-- Outcome of `subprocess.run(command, shell=True, capture_output=True,
text=True)`: exit status and captured stdout. -/
structure ShellResult where
  returncode : Nat
  stdout : String

/-- Python's `str(e)` for a subprocess.CalledProcessError with a positive
exit status. -/
def calledProcessErrorString (cmd : String) (code : Nat) : String :=
  "Command \x27" ++ cmd ++ "\x27 returned non-zero exit status " ++ toString code ++ "."

/-- handle_run_command: missing/empty command is an error; with check=True
a non-zero exit raises CalledProcessError, caught and converted into a
result holding both the error text and the stdout captured so far
(`e.output` is the captured stdout in text mode). -/
def handle_run_command (command : Option String) (exec : String → ShellResult) : JObj :=
  match command with
  | none => errObj "No command provided"
  | some c =>
    if c = "" then errObj "No command provided"
    else
      let r := exec c
      if r.returncode = 0 then [("output", JValue.str r.stdout)]
      else [("error", JValue.str (calledProcessErrorString c r.returncode)),
            ("output", JValue.str r.stdout)]

/-
handle_undo (lines 200-212).
-/

/-- The State attributes handle_undo touches, as initialized by
initialize_state: `state.last_aider_commit_hash` (a hash string or None)
and `state.last_undone_commit_hash`. -/
structure ProcAttrs where
  last_aider_commit_hash : Option String
  last_undone_commit_hash : Option String
deriving DecidableEq

/-- handle_undo: reject a missing/empty hash; reject any hash that differs
from either the process-state's or the coder's last_aider_commit_hash,
naming it in the error; otherwise run cmd_undo (its reply is the oracle
`reply`) and record the hash as last undone. -/
def handle_undo (commit_hash : Option String) (st : ProcAttrs)
    (coder_last : Option String) (reply : JValue) : JObj × ProcAttrs :=
  match commit_hash with
  | none => (errObj "No commit hash provided", st)
  | some h =>
    if h = "" then (errObj "No commit hash provided", st)
    else if st.last_aider_commit_hash ≠ some h ∨ coder_last ≠ some h then
      (errObj ("Commit " ++ h ++ " is not the latest commit."), st)
    else
      ([("message", JValue.str "Undo successful"), ("reply", reply)],
       { st with last_undone_commit_hash := some h })

/-
handle_chat (lines 128-154).
-/

/-- Modelled from the spec: `InputOutput.add_to_input_history` lives in
aider/io.py, which is not under src/; the spec's chat contract says
"append to input history", so the call appends the message to the engine's
stored input history. -/
def add_to_input_history (hist : List String) (msg : String) : List String :=
  hist ++ [msg]

/-- The coder fields handle_chat reads after the run: whether the turn
edited files, the resulting commit (if any), and the repo's diff_commits
collaborator (pretty flag, from-ref, to-ref). -/
structure ChatCoder where
  pretty : Bool
  aider_edited_files : List String
  last_aider_commit_hash : Option String
  last_aider_commit_message : Option String
  diff_commits : Bool → String → String → String

/-- handle_chat: reject a missing/empty message; otherwise append the
message to the input history, join the fragments the engine's run_stream
produced into the response text, and build at most one edit record — with
a diff over the range `hash~1 .. hash` when a commit hash is present. -/
def handle_chat (message : Option String) (fragments : List String)
    (c : ChatCoder) (hist : List String) : JObj × List String :=
  match message with
  | none => (errObj "No message provided", hist)
  | some m =>
    if m = "" then (errObj "No message provided", hist)
    else
      let hist2 := add_to_input_history hist m
      let response := String.join fragments
      let edits : List JObj :=
        if c.aider_edited_files = [] then []
        else
          let base : JObj :=
            [("fnames", JValue.strList c.aider_edited_files),
             ("commit_hash", optStr c.last_aider_commit_hash),
             ("commit_message", optStr c.last_aider_commit_message)]
          let edit :=
            match c.last_aider_commit_hash with
            | some hsh =>
              if hsh = "" then base
              else base ++ [("diff", JValue.str (c.diff_commits c.pretty (hsh ++ "~1") hsh))]
            | none => base
          [edit]
      ([("response", JValue.str response), ("edits", JValue.objList edits)], hist2)

/-
handle_add_files (lines 159-166).  The session's in-chat file set is the
list `inchat`; `get_inchat_relative_files` is its current value and
`add_rel_fname` appends a file to it (collaborators in aider/coders, not
under src/; the spec calls this "the session's file set" with membership
and insertion).
-/

/-- The for-loop of handle_add_files: returns the `added` report and the
in-chat file list after the call. -/
def add_files_loop : List String → List String → List String × List String
  | [], inchat => ([], inchat)
  | fname :: rest, inchat =>
    if fname ∈ inchat then add_files_loop rest inchat
    else
      let r := add_files_loop rest (inchat ++ [fname])
      (fname :: r.1, r.2)

/-- handle_add_files on payload field `files` (default `[]`). -/
def handle_add_files (fnames : List String) (inchat : List String) :
    List String × List String :=
  add_files_loop fnames inchat

/-- The in-chat file list after a sequence of add_files calls. -/
def run_add_files_calls (inchat : List String) : List (List String) → List String
  | [] => inchat
  | call :: rest => run_add_files_calls (handle_add_files call inchat).2 rest

/-
handle_add_web_page (lines 168-181).
-/

/-- Modelled from the spec: aider/scrape.py is not under src/; the spec
says `Scraper.fetch(url) → optional<string>` with scrape-level errors
swallowed (the instance is built with `print_error=lambda x: None`), so a
scraper is its fetch function, returning none on failure. -/
structure Scraper where
  scrape : String → Option String

/-- Python's `content.strip()` truthiness test: true exactly when the
string holds at least one non-whitespace character. -/
def py_strip_nonempty (s : String) : Bool :=
  s.data.any fun c => !c.isWhitespace

/-- handle_add_web_page: reject a missing/empty url; lazily construct the
shared scraper in `state.scraper` when it is still None (`mk` is the
instance `Scraper(print_error=lambda x: None)` would produce); treat a
failed scrape as empty content (`scrape(url) or ""`); whitespace-only
content is an error, otherwise return the content prefixed by the url and
a blank line. -/
def handle_add_web_page (url : Option String) (scraper : Option Scraper)
    (mk : Scraper) : JObj × Option Scraper :=
  match url with
  | none => (errObj "No URL provided", scraper)
  | some u =>
    if u = "" then (errObj "No URL provided", scraper)
    else
      let scr := match scraper with
        | none => mk
        | some s => s
      let content := (scr.scrape u).getD ""
      if py_strip_nonempty content then
        ([("content", JValue.str (u ++ "\n\n" ++ content))], some scr)
      else
        (errObj ("No web content found for " ++ u), some scr)

/-- The scraper slot of the process state after a sequence of
add_web_page calls (one url per call). -/
def run_web_calls (scraper : Option Scraper) (mk : Scraper) :
    List (Option String) → Option Scraper
  | [] => scraper
  | url :: rest => run_web_calls (handle_add_web_page url scraper mk).2 mk rest

/-
Input-history deduplication (initialize_state, lines 262-267):
`[x for x in input_history if not (x in seen or seen.add(x))]`.
-/

/-- The list comprehension's loop: keep `x` when it is not yet in `seen`,
then add it to `seen`. -/
def dedup_aux (seen : List String) : List String → List String
  | [] => []
  | x :: rest =>
    if x ∈ seen then dedup_aux seen rest
    else x :: dedup_aux (x :: seen) rest

/-- The deduplicated input history stored in `state.input_history`. -/
def dedup_input_history (raw : List String) : List String :=
  dedup_aux [] raw

/-- Index of the first occurrence of `x` (length of the list when absent). -/
def firstIdx : List String → String → Nat
  | [], _ => 0
  | y :: rest, x => if x = y then 0 else firstIdx rest x + 1

/-- The raw engine input history after submitting messages as successive
chat turns (each handle_chat call appends its message, line 133). -/
def submit_messages (hist : List String) (msgs : List String) : List String :=
  msgs.foldl add_to_input_history hist

/-
Concrete instances used by the witness theorems below.
-/

/-- Concrete process attributes for C2's witness: last commit abc, nothing
undone yet. -/
def procAttrsEx : ProcAttrs :=
  { last_aider_commit_hash := some "abc", last_undone_commit_hash := none }

/-- Concrete run_command failure: the shell reports exit status 1 with
"partial stdout" captured so far. -/
def runCommandFailResult : JObj :=
  handle_run_command (some "false") (fun _ => { returncode := 1, stdout := "partial stdout" })

/-- Concrete coder outcome for C4's witness: one edited file committed as
abc123 with message "fix". -/
def chatCoderEx : ChatCoder :=
  { pretty := false,
    aider_edited_files := ["f.py"],
    last_aider_commit_hash := some "abc123",
    last_aider_commit_message := some "fix",
    diff_commits := fun _ a b => "diff " ++ a ++ " " ++ b }

/-- Concrete scraper for C7's witness that finds page text. -/
def scraperTextEx : Scraper :=
  { scrape := fun _ => some "Some page text" }

/-- Concrete scraper for C7's witness whose fetch fails (errors are
swallowed, surfacing as no content). -/
def scraperFailEx : Scraper :=
  { scrape := fun _ => none }

/-
Lemmas about State.init and runInits.
-/

theorem init_keeps_key {s : State} {k : String} (hk : k ∈ s.keys)
    (k2 : String) (v2 : JValue) : k ∈ (s.init k2 v2).1.keys := by
  unfold State.init
  by_cases h : k2 ∈ s.keys
  · rw [if_pos h]; exact hk
  · rw [if_neg h]; exact List.mem_cons_of_mem k2 hk

theorem init_keeps_getattr {s : State} {k : String} (hk : k ∈ s.keys)
    (k2 : String) (v2 : JValue) : (s.init k2 v2).1.getattr k = s.getattr k := by
  unfold State.init
  by_cases h : k2 ∈ s.keys
  · simp [h]
  · have hne : k2 ≠ k := fun he => h (he ▸ hk)
    simp [h, State.getattr, getField, hne]

theorem runInits_keeps_key {k : String} (ops : List (String × JValue)) :
    ∀ s : State, k ∈ s.keys → k ∈ (runInits s ops).keys := by
  induction ops with
  | nil => intro s hk; exact hk
  | cons op rest ih =>
    intro s hk
    exact ih (s.init op.1 op.2).1 (init_keeps_key hk op.1 op.2)

theorem runInits_keeps_getattr {k : String} (ops : List (String × JValue)) :
    ∀ s : State, k ∈ s.keys → (runInits s ops).getattr k = s.getattr k := by
  induction ops with
  | nil => intro s _; rfl
  | cons op rest ih =>
    intro s hk
    obtain ⟨k2, v2⟩ := op
    have h1 := ih (s.init k2 v2).1 (init_keeps_key hk k2 v2)
    calc (runInits s ((k2, v2) :: rest)).getattr k
        = (s.init k2 v2).1.getattr k := h1
      _ = s.getattr k := init_keeps_getattr hk k2 v2

/-- C1: first-write-wins registry.  The first `init(k, v)` reports true,
adds `k` to the key set and binds `k` to `v`; a later `init(k, v2)` is a
no-op reporting false; and across any further sequence of init calls `k`
stays in the key set (no deletion) still bound to `v`. -/
theorem C1_state_init_first_write_wins (s : State) (k : String) (v v2 : JValue)
    (ops : List (String × JValue)) (hk : k ∉ s.keys) :
    (s.init k v).2 = true ∧
    k ∈ (s.init k v).1.keys ∧
    (s.init k v).1.getattr k = some v ∧
    (s.init k v).1.init k v2 = ((s.init k v).1, false) ∧
    k ∈ (runInits (s.init k v).1 ops).keys ∧
    (runInits (s.init k v).1 ops).getattr k = some v := by
  have hmem : k ∈ (s.init k v).1.keys := by
    unfold State.init; simp [hk]
  have hget : (s.init k v).1.getattr k = some v := by
    unfold State.init; simp [hk, State.getattr, getField]
  refine ⟨?_, hmem, hget, ?_, ?_, ?_⟩
  · unfold State.init; simp [hk]
  · unfold State.init; simp [hk]
  · exact runInits_keeps_key ops _ hmem
  · rw [runInits_keeps_getattr ops _ hmem, hget]

/-- Witness for C1 at a concrete registry and init sequence. -/
theorem C1_witness :
    "x" ∉ State.keys { keys := [], attrs := [] } ∧
    (State.init { keys := [], attrs := [] } "x" (JValue.jnat 1)).2 = true ∧
    "x" ∈ (State.init { keys := [], attrs := [] } "x" (JValue.jnat 1)).1.keys ∧
    (State.init { keys := [], attrs := [] } "x" (JValue.jnat 1)).1.getattr "x" =
      some (JValue.jnat 1) ∧
    (State.init { keys := [], attrs := [] } "x" (JValue.jnat 1)).1.init "x" (JValue.jnat 2) =
      ((State.init { keys := [], attrs := [] } "x" (JValue.jnat 1)).1, false) ∧
    "x" ∈ (runInits (State.init { keys := [], attrs := [] } "x" (JValue.jnat 1)).1
      [("x", JValue.jnat 2), ("y", JValue.jnat 3)]).keys ∧
    (runInits (State.init { keys := [], attrs := [] } "x" (JValue.jnat 1)).1
      [("x", JValue.jnat 2), ("y", JValue.jnat 3)]).getattr "x" = some (JValue.jnat 1) := by
  refine ⟨by simp, ?_⟩
  have h := C1_state_init_first_write_wins { keys := [], attrs := [] } "x"
    (JValue.jnat 1) (JValue.jnat 2) [("x", JValue.jnat 2), ("y", JValue.jnat 3)] (by simp)
  exact ⟨h.1, h.2.1, h.2.2.1, h.2.2.2.1, h.2.2.2.2.1, h.2.2.2.2.2⟩

/-
Lemmas about CaptureIO.
-/

theorem runIOOps_lines (ops : List IOOp) :
    ∀ st : CaptureIOState, (runIOOps st ops).lines = st.lines ++ capturedOf ops := by
  induction ops with
  | nil => intro st; simp [runIOOps, capturedOf]
  | cons op rest ih =>
    intro st
    cases op with
    | output msg lo =>
      cases lo <;> simp [runIOOps, capturedOf, List.filterMap_cons, ih, tool_output]
    | error msg =>
      simp [runIOOps, capturedOf, List.filterMap_cons, ih, tool_error]

theorem runIOOps_forwarded (ops : List IOOp) :
    ∀ st : CaptureIOState, (runIOOps st ops).forwarded = st.forwarded ++ allMessages ops := by
  induction ops with
  | nil => intro st; simp [runIOOps, allMessages]
  | cons op rest ih =>
    intro st
    cases op with
    | output msg lo =>
      simp [runIOOps, allMessages, ih, tool_output]
    | error msg =>
      simp [runIOOps, allMessages, ih, tool_error]

/-- C8: starting from a freshly drained buffer, running any emission
sequence and draining returns exactly the error messages and non-log-only
output messages in emission order (log-only outputs never enter the
buffer), an immediately repeated drain returns the empty list, and every
message is forwarded to the underlying default sink regardless. -/
theorem C8_capture_drain (ops : List IOOp) (fwd : List String) :
    (get_captured_lines (runIOOps { lines := [], forwarded := fwd } ops)).1 =
      capturedOf ops ∧
    (get_captured_lines
      ((get_captured_lines (runIOOps { lines := [], forwarded := fwd } ops)).2)).1 = [] ∧
    (runIOOps { lines := [], forwarded := fwd } ops).forwarded = fwd ++ allMessages ops := by
  refine ⟨?_, rfl, runIOOps_forwarded ops _⟩
  show (runIOOps { lines := [], forwarded := fwd } ops).lines = capturedOf ops
  rw [runIOOps_lines ops _]
  rfl

/-- C2: with a non-empty commit_hash, handle_undo succeeds exactly when the
hash equals both the process-state's and the coder's last_aider_commit_hash;
any other string yields an error naming that hash as not the latest commit
and leaves the state unchanged; on success the hash is recorded as the
last undone commit. -/
theorem C2_handle_undo_stale_check (h : String) (hne : h ≠ "") (st : ProcAttrs)
    (coder_last : Option String) (reply : JValue) :
    (st.last_aider_commit_hash = some h ∧ coder_last = some h →
      (handle_undo (some h) st coder_last reply).1 =
        [("message", JValue.str "Undo successful"), ("reply", reply)] ∧
      (handle_undo (some h) st coder_last reply).2 =
        { st with last_undone_commit_hash := some h }) ∧
    (st.last_aider_commit_hash ≠ some h ∨ coder_last ≠ some h →
      (handle_undo (some h) st coder_last reply).1 =
        errObj ("Commit " ++ h ++ " is not the latest commit.") ∧
      (handle_undo (some h) st coder_last reply).2 = st) ∧
    (getField (handle_undo (some h) st coder_last reply).1 "error" = none ↔
      st.last_aider_commit_hash = some h ∧ coder_last = some h) := by
  by_cases hm : st.last_aider_commit_hash ≠ some h ∨ coder_last ≠ some h
  · refine ⟨fun hc => absurd hm ?_, fun _ => ?_, ?_⟩
    · push_neg
      exact hc
    · simp [handle_undo, hne, hm]
    · constructor
      · intro hnone
        exfalso
        revert hnone
        simp [handle_undo, hne, hm, errObj, getField]
      · intro hc
        exact absurd hm (by push_neg; exact hc)
  · have hc : st.last_aider_commit_hash = some h ∧ coder_last = some h := by
      push_neg at hm
      exact hm
    refine ⟨fun _ => ?_, fun hbad => ?_, ?_⟩
    · constructor <;> simp [handle_undo, hne, hm]
    · rcases hbad with hbad | hbad
      · exact absurd hc.1 hbad
      · exact absurd hc.2 hbad
    · constructor
      · intro _; exact hc
      · intro _
        simp [handle_undo, hne, hm, getField]

/-- Witness for C2 at concrete hashes, exercising both the success and the
stale branch. -/
theorem C2_witness :
    ("abc" : String) ≠ "" ∧
    (handle_undo (some "abc") procAttrsEx (some "abc") JValue.null).1 =
      [("message", JValue.str "Undo successful"), ("reply", JValue.null)] ∧
    (handle_undo (some "abc") procAttrsEx (some "abc") JValue.null).2 =
      { procAttrsEx with last_undone_commit_hash := some "abc" } ∧
    (handle_undo (some "stale") procAttrsEx (some "abc") JValue.null).1 =
      errObj ("Commit " ++ "stale" ++ " is not the latest commit.") := by
  have hok := (C2_handle_undo_stale_check "abc" (by decide) procAttrsEx
    (some "abc") JValue.null).1 ⟨rfl, rfl⟩
  have hbad := ((C2_handle_undo_stale_check "stale" (by decide) procAttrsEx
    (some "abc") JValue.null).2.1 (Or.inl (by decide))).1
  exact ⟨by decide, hok.1, hok.2, hbad⟩

/-- C3 counterexample: a run_command failure produces a handler result
holding both an error text and the captured stdout, but the 400 response
body keeps only the error field — it does not carry the handler result,
and in particular drops the stdout captured so far. -/
theorem C3_counterexample :
    getField runCommandFailResult "error" =
      some (JValue.str (calledProcessErrorString "false" 1)) ∧
    getField runCommandFailResult "output" = some (JValue.str "partial stdout") ∧
    (respond runCommandFailResult).status = 400 ∧
    (respond runCommandFailResult).body =
      [("error", JValue.str (calledProcessErrorString "false" 1))] ∧
    getField (respond runCommandFailResult).body "output" = none :=
  ⟨rfl, rfl, rfl, rfl, rfl⟩

/-- C3 as amended: a handler result with an "error" field is sent as a 400
whose JSON body is just that error field (other fields — for run_command
the captured stdout — are dropped); a result without an "error" field is
sent back whole with status 200. -/
theorem C3_respond_shaping (result : JObj) :
    (∀ v, getField result "error" = some v →
      respond result = { status := 400, body := [("error", v)] }) ∧
    (getField result "error" = none →
      respond result = { status := 200, body := result }) ∧
    (∀ cmd exec, cmd ≠ "" → (exec cmd).returncode ≠ 0 →
      respond (handle_run_command (some cmd) exec) =
        { status := 400,
          body := [("error",
            JValue.str (calledProcessErrorString cmd (exec cmd).returncode))] }) := by
  refine ⟨fun v hv => ?_, fun hv => ?_, fun cmd exec hc hr => ?_⟩
  · simp [respond, hv, send_error_response]
  · simp [respond, hv]
  · simp [handle_run_command, hc, hr, respond, getField, send_error_response]

/-- Witness for C3's amended theorem at a concrete success result and a
concrete failing shell command. -/
theorem C3_witness :
    getField ([("a", JValue.null)] : JObj) "error" = none ∧
    respond [("a", JValue.null)] = { status := 200, body := [("a", JValue.null)] } ∧
    ("false" : String) ≠ "" ∧
    respond (handle_run_command (some "false")
        (fun _ => { returncode := 1, stdout := "out" })) =
      { status := 400,
        body := [("error", JValue.str (calledProcessErrorString "false"
          ((fun (_ : String) => ({ returncode := 1, stdout := "out" } : ShellResult)) "false").returncode))] } :=
  ⟨rfl, (C3_respond_shaping [("a", JValue.null)]).2.1 rfl, by decide,
   (C3_respond_shaping []).2.2 "false"
     (fun _ => { returncode := 1, stdout := "out" }) (by decide) (by decide)⟩

/-- C4: for a non-empty chat message, the response field is the
concatenation of the engine's stream fragments in order, the message is
appended to the input history, an engine turn with no edited files yields
an empty edits list, and a turn with edited files and a commit yields one
edit record holding the file names, the commit hash, the commit message,
and the diff over the range from the commit's parent (`hash~1`) to the
commit. -/
theorem C4_handle_chat_response (m : String) (hm : m ≠ "") (fragments : List String)
    (c : ChatCoder) (hist : List String) :
    getField (handle_chat (some m) fragments c hist).1 "response" =
      some (JValue.str (String.join fragments)) ∧
    (handle_chat (some m) fragments c hist).2 = hist ++ [m] ∧
    (c.aider_edited_files = [] →
      getField (handle_chat (some m) fragments c hist).1 "edits" =
        some (JValue.objList [])) ∧
    (∀ hsh cm, c.aider_edited_files ≠ [] → c.last_aider_commit_hash = some hsh →
      hsh ≠ "" → c.last_aider_commit_message = some cm →
      getField (handle_chat (some m) fragments c hist).1 "edits" =
        some (JValue.objList
          [[("fnames", JValue.strList c.aider_edited_files),
            ("commit_hash", JValue.str hsh),
            ("commit_message", JValue.str cm),
            ("diff", JValue.str (c.diff_commits c.pretty (hsh ++ "~1") hsh))]])) := by
  refine ⟨?_, ?_, fun hempty => ?_, fun hsh cm hne hhash hne2 hmsg => ?_⟩
  · simp [handle_chat, hm, getField]
  · simp [handle_chat, hm, add_to_input_history]
  · simp [handle_chat, hm, hempty, getField]
  · simp [handle_chat, hm, hne, hhash, hne2, hmsg, getField, optStr]

/-- Witness for C4 at a concrete message, fragment stream and coder
outcome. -/
theorem C4_witness :
    ("hi" : String) ≠ "" ∧
    getField (handle_chat (some "hi") ["Hello ", "world"] chatCoderEx []).1 "response" =
      some (JValue.str (String.join ["Hello ", "world"])) ∧
    (handle_chat (some "hi") ["Hello ", "world"] chatCoderEx []).2 = [] ++ ["hi"] ∧
    getField (handle_chat (some "hi") ["Hello ", "world"] chatCoderEx []).1 "edits" =
      some (JValue.objList
        [[("fnames", JValue.strList chatCoderEx.aider_edited_files),
          ("commit_hash", JValue.str "abc123"),
          ("commit_message", JValue.str "fix"),
          ("diff", JValue.str (chatCoderEx.diff_commits chatCoderEx.pretty
            ("abc123" ++ "~1") "abc123"))]]) := by
  have h := C4_handle_chat_response "hi" (by decide) ["Hello ", "world"] chatCoderEx []
  exact ⟨by decide, h.1, h.2.1,
    h.2.2.2 "abc123" "fix" (by decide) rfl (by decide) rfl⟩

/-- C9 (evidence for the code bug): do_POST wraps json.loads in no
try/except, so on any body that fails to parse it raises JSONDecodeError —
the exception escapes before any handler runs and no 400-class response is
ever produced by the request handling path. -/
theorem C9_malformed_json_uncaught (path : String) (msg : String)
    (run : String → JObj → JObj) :
    do_POST path (Except.error msg) run = Except.error (PyExn.jsonDecodeError msg) ∧
    ∀ resp, do_POST path (Except.error msg) run ≠ Except.ok resp := by
  refine ⟨rfl, fun resp heq => ?_⟩
  exact Except.noConfusion heq

/-- Witness for C9 at a concrete malformed body (json.loads error text). -/
theorem C9_witness :
    do_POST "/chat" (Except.error "Expecting value: line 1 column 1 (char 0)")
        (fun _ _ => []) =
      Except.error (PyExn.jsonDecodeError "Expecting value: line 1 column 1 (char 0)") :=
  (C9_malformed_json_uncaught "/chat" "Expecting value: line 1 column 1 (char 0)"
    (fun _ _ => [])).1

/-- C10: the five routes whose handler methods declare no payload
parameter all make the dispatch call `handler(data)` raise TypeError, so
none of them can ever produce its documented 200 success response. -/
theorem C10_selfonly_routes_typeerror (p : String)
    (hp : p ∈ ["/get_model", "/clear_chat_history", "/get_chat_history",
      "/get_file_list", "/commit"])
    (data : JObj) (run : String → JObj → JObj) :
    (∃ msg, do_POST p (Except.ok data) run = Except.error (PyExn.typeError msg)) ∧
    ∀ resp, do_POST p (Except.ok data) run ≠ Except.ok resp := by
  simp only [List.mem_cons, List.mem_singleton] at hp
  rcases hp with rfl | rfl | rfl | rfl | rfl | h
  · exact ⟨⟨type_error_message "handle_get_model", rfl⟩,
      fun resp heq => Except.noConfusion heq⟩
  · exact ⟨⟨type_error_message "handle_clear_chat_history", rfl⟩,
      fun resp heq => Except.noConfusion heq⟩
  · exact ⟨⟨type_error_message "handle_get_chat_history", rfl⟩,
      fun resp heq => Except.noConfusion heq⟩
  · exact ⟨⟨type_error_message "handle_get_file_list", rfl⟩,
      fun resp heq => Except.noConfusion heq⟩
  · exact ⟨⟨type_error_message "handle_commit", rfl⟩,
      fun resp heq => Except.noConfusion heq⟩
  · exact absurd h (List.not_mem_nil p)

/-
Lemmas about handle_add_files.
-/

theorem mem_add_files_snd (fs : List String) :
    ∀ (inchat : List String) (g : String),
      g ∈ (add_files_loop fs inchat).2 ↔ g ∈ inchat ∨ g ∈ fs := by
  induction fs with
  | nil =>
    intro inchat g
    simp [add_files_loop]
  | cons f rest ih =>
    intro inchat g
    by_cases hf : f ∈ inchat
    · have hred : (add_files_loop (f :: rest) inchat).2 = (add_files_loop rest inchat).2 := by
        simp [add_files_loop, hf]
      rw [hred, ih]
      constructor
      · rintro (h | h)
        · exact Or.inl h
        · exact Or.inr (List.mem_cons_of_mem f h)
      · rintro (h | h)
        · exact Or.inl h
        · rcases List.mem_cons.mp h with rfl | h2
          · exact Or.inl hf
          · exact Or.inr h2
    · have hred : (add_files_loop (f :: rest) inchat).2 =
          (add_files_loop rest (inchat ++ [f])).2 := by
        simp [add_files_loop, hf]
      rw [hred, ih]
      simp only [List.mem_append, List.mem_singleton, List.mem_cons]
      tauto

theorem mem_add_files_fst (fs : List String) :
    ∀ (inchat : List String) (g : String),
      g ∈ (add_files_loop fs inchat).1 ↔ g ∈ fs ∧ g ∉ inchat := by
  induction fs with
  | nil =>
    intro inchat g
    simp [add_files_loop]
  | cons f rest ih =>
    intro inchat g
    by_cases hf : f ∈ inchat
    · have hred : (add_files_loop (f :: rest) inchat).1 = (add_files_loop rest inchat).1 := by
        simp [add_files_loop, hf]
      rw [hred, ih]
      constructor
      · rintro ⟨h1, h2⟩
        exact ⟨List.mem_cons_of_mem f h1, h2⟩
      · rintro ⟨h1, h2⟩
        rcases List.mem_cons.mp h1 with rfl | h3
        · exact absurd hf h2
        · exact ⟨h3, h2⟩
    · have hred : (add_files_loop (f :: rest) inchat).1 =
          f :: (add_files_loop rest (inchat ++ [f])).1 := by
        simp [add_files_loop, hf]
      rw [hred]
      constructor
      · intro h
        rcases List.mem_cons.mp h with rfl | h2
        · exact ⟨List.mem_cons_self g rest, hf⟩
        · have h3 := (ih (inchat ++ [f]) g).mp h2
          exact ⟨List.mem_cons_of_mem f h3.1,
            fun hg => h3.2 (List.mem_append_left [f] hg)⟩
      · rintro ⟨h1, h2⟩
        rcases List.mem_cons.mp h1 with rfl | h3
        · exact List.mem_cons_self g _
        · by_cases hgf : g = f
          · subst hgf
            exact List.mem_cons_self g _
          · refine List.mem_cons_of_mem f ((ih (inchat ++ [f]) g).mpr ⟨h3, ?_⟩)
            intro hg
            rcases List.mem_append.mp hg with hg2 | hg2
            · exact h2 hg2
            · exact hgf (List.mem_singleton.mp hg2)

theorem count_add_files_snd (fs : List String) :
    ∀ (inchat : List String) (g : String), g ∈ inchat →
      (add_files_loop fs inchat).2.count g = inchat.count g := by
  induction fs with
  | nil =>
    intro inchat g _
    rfl
  | cons f rest ih =>
    intro inchat g hg
    by_cases hf : f ∈ inchat
    · have hred : (add_files_loop (f :: rest) inchat).2 = (add_files_loop rest inchat).2 := by
        simp [add_files_loop, hf]
      rw [hred, ih inchat g hg]
    · have hred : (add_files_loop (f :: rest) inchat).2 =
          (add_files_loop rest (inchat ++ [f])).2 := by
        simp [add_files_loop, hf]
      have hgf : g ≠ f := fun he => hf (he ▸ hg)
      rw [hred, ih (inchat ++ [f]) g (List.mem_append_left [f] hg),
        List.count_append]
      simp [List.count_eq_zero, hgf]

theorem mem_run_add_files (calls : List (List String)) :
    ∀ (inchat : List String) (g : String),
      g ∈ run_add_files_calls inchat calls ↔ g ∈ inchat ∨ ∃ c ∈ calls, g ∈ c := by
  induction calls with
  | nil =>
    intro inchat g
    simp [run_add_files_calls]
  | cons call rest ih =>
    intro inchat g
    show g ∈ run_add_files_calls (handle_add_files call inchat).2 rest ↔ _
    rw [ih]
    have hm : g ∈ (handle_add_files call inchat).2 ↔ g ∈ inchat ∨ g ∈ call :=
      mem_add_files_snd call inchat g
    rw [hm]
    constructor
    · rintro ((h | h) | ⟨c, hc, hgc⟩)
      · exact Or.inl h
      · exact Or.inr ⟨call, List.mem_cons_self call rest, h⟩
      · exact Or.inr ⟨c, List.mem_cons_of_mem call hc, hgc⟩
    · rintro (h | ⟨c, hc, hgc⟩)
      · exact Or.inl (Or.inl h)
      · rcases List.mem_cons.mp hc with rfl | h2
        · exact Or.inl (Or.inr hgc)
        · exact Or.inr ⟨c, h2, hgc⟩

/-- C5: add_files is idempotent — the added report of one call holds
exactly the requested names not already tracked, a name already tracked is
neither reported nor re-added (its multiplicity in the tracked list is
unchanged), one call's resulting tracked set is the union of the previous
set and the request, and after any sequence of calls the tracked set is
the union of the initial set and all requested names. -/
theorem C5_add_files_idempotent (fnames tracked : List String) (g : String)
    (calls : List (List String)) :
    (g ∈ (handle_add_files fnames tracked).1 ↔ g ∈ fnames ∧ g ∉ tracked) ∧
    (g ∈ tracked → g ∉ (handle_add_files fnames tracked).1 ∧
      (handle_add_files fnames tracked).2.count g = tracked.count g) ∧
    (g ∈ (handle_add_files fnames tracked).2 ↔ g ∈ tracked ∨ g ∈ fnames) ∧
    (g ∈ run_add_files_calls tracked calls ↔ g ∈ tracked ∨ ∃ c ∈ calls, g ∈ c) := by
  refine ⟨mem_add_files_fst fnames tracked g, fun hg => ⟨?_, ?_⟩,
    mem_add_files_snd fnames tracked g, mem_run_add_files calls tracked g⟩
  · intro habs
    exact ((mem_add_files_fst fnames tracked g).mp habs).2 hg
  · exact count_add_files_snd fnames tracked g hg

/-- Witness for C5: with "b" already tracked, adding ["a", "b"] does not
report or duplicate "b". -/
theorem C5_witness :
    ("b" : String) ∈ (["b"] : List String) ∧
    ("b" ∉ (handle_add_files ["a", "b"] ["b"]).1 ∧
      (handle_add_files ["a", "b"] ["b"]).2.count "b" = (["b"] : List String).count "b") :=
  ⟨by decide, (C5_add_files_idempotent ["a", "b"] ["b"] "b" []).2.1 (by decide)⟩

/-
Lemmas about handle_add_web_page.
-/

theorem web_keeps_scraper (url : Option String) (s mk : Scraper) :
    (handle_add_web_page url (some s) mk).2 = some s := by
  cases url with
  | none => rfl
  | some u =>
    by_cases hu : u = ""
    · simp [handle_add_web_page, hu]
    · by_cases hc : py_strip_nonempty ((s.scrape u).getD "") <;>
        simp [handle_add_web_page, hu, hc]

theorem run_web_some (urls : List (Option String)) :
    ∀ (s mk : Scraper), run_web_calls (some s) mk urls = some s := by
  induction urls with
  | nil =>
    intro s mk
    rfl
  | cons url rest ih =>
    intro s mk
    show run_web_calls (handle_add_web_page url (some s) mk).2 mk rest = some s
    rw [web_keeps_scraper url s mk]
    exact ih s mk

theorem run_web_none (urls : List (Option String)) :
    ∀ (mk : Scraper),
      run_web_calls none mk urls = none ∨ run_web_calls none mk urls = some mk := by
  induction urls with
  | nil =>
    intro mk
    exact Or.inl rfl
  | cons url rest ih =>
    intro mk
    cases url with
    | none =>
      have hunf : run_web_calls none mk (none :: rest) = run_web_calls none mk rest := rfl
      rw [hunf]
      exact ih mk
    | some u =>
      have hunf : run_web_calls none mk (some u :: rest) =
          run_web_calls (handle_add_web_page (some u) none mk).2 mk rest := rfl
      by_cases hu : u = ""
      · rw [hunf, show (handle_add_web_page (some u) none mk).2 = none from by
          simp [handle_add_web_page, hu]]
        exact ih mk
      · rw [hunf, show (handle_add_web_page (some u) none mk).2 = some mk from by
          by_cases hc : py_strip_nonempty ((mk.scrape u).getD "") <;>
            simp [handle_add_web_page, hu, hc]]
        exact Or.inr (run_web_some rest mk mk)

/-- C7: a missing or empty url is an error leaving the scraper slot
untouched; with a url, an existing shared scraper is reused and kept, and
a missing one is constructed exactly once (the slot can only ever hold the
single constructed instance); a failed scrape counts as empty content;
content with no non-whitespace character yields exactly the "No web
content found" error, and non-empty content is returned prefixed with the
url and a blank line. -/
theorem C7_add_web_page_scraper (u : String) (hu : u ≠ "") (s mk : Scraper)
    (scraper : Option Scraper) (urls : List (Option String)) :
    handle_add_web_page none scraper mk = (errObj "No URL provided", scraper) ∧
    handle_add_web_page (some "") scraper mk = (errObj "No URL provided", scraper) ∧
    (handle_add_web_page (some u) (some s) mk).2 = some s ∧
    (handle_add_web_page (some u) none mk).2 = some mk ∧
    run_web_calls (some s) mk urls = some s ∧
    (run_web_calls none mk urls = none ∨ run_web_calls none mk urls = some mk) ∧
    (s.scrape u = none →
      (handle_add_web_page (some u) (some s) mk).1 =
        errObj ("No web content found for " ++ u)) ∧
    (∀ c, s.scrape u = some c → py_strip_nonempty c = false →
      (handle_add_web_page (some u) (some s) mk).1 =
        errObj ("No web content found for " ++ u)) ∧
    (∀ c, s.scrape u = some c → py_strip_nonempty c = true →
      (handle_add_web_page (some u) (some s) mk).1 =
        [("content", JValue.str (u ++ "\n\n" ++ c))]) := by
  refine ⟨rfl, by simp [handle_add_web_page], web_keeps_scraper (some u) s mk, ?_,
    run_web_some urls s mk, run_web_none urls mk, fun hn => ?_,
    fun c hsc hc => ?_, fun c hsc hc => ?_⟩
  · by_cases hc : py_strip_nonempty ((mk.scrape u).getD "") <;>
      simp [handle_add_web_page, hu, hc]
  · have hfalse : py_strip_nonempty ((s.scrape u).getD "") = false := by
      rw [hn]
      rfl
    simp [handle_add_web_page, hu, hfalse]
  · have hfalse : py_strip_nonempty ((s.scrape u).getD "") = false := by
      rw [hsc]
      exact hc
    simp [handle_add_web_page, hu, hfalse]
  · simp [handle_add_web_page, hu, hsc, hc]

/-- Witness for C7 at a concrete url with a succeeding and a failing
scraper. -/
theorem C7_witness :
    ("http://example.com" : String) ≠ "" ∧
    (handle_add_web_page (some "http://example.com") (some scraperTextEx) scraperFailEx).1 =
      [("content", JValue.str ("http://example.com" ++ "\n\n" ++ "Some page text"))] ∧
    (handle_add_web_page (some "http://example.com") (some scraperFailEx) scraperFailEx).1 =
      errObj ("No web content found for " ++ "http://example.com") := by
  have h1 := (C7_add_web_page_scraper "http://example.com" (by decide)
    scraperTextEx scraperFailEx none []).2.2.2.2.2.2.2.2 "Some page text" rfl (by decide)
  have h2 := (C7_add_web_page_scraper "http://example.com" (by decide)
    scraperFailEx scraperFailEx none []).2.2.2.2.2.2.1 rfl
  exact ⟨by decide, h1, h2⟩

/-
Lemmas about the input-history deduplication.
-/

theorem mem_dedup_aux (l : List String) :
    ∀ (seen : List String) (x : String),
      x ∈ dedup_aux seen l ↔ x ∈ l ∧ x ∉ seen := by
  induction l with
  | nil =>
    intro seen x
    simp [dedup_aux]
  | cons y rest ih =>
    intro seen x
    by_cases hy : y ∈ seen
    · rw [show dedup_aux seen (y :: rest) = dedup_aux seen rest from by
        simp [dedup_aux, hy]]
      rw [ih]
      constructor
      · rintro ⟨h1, h2⟩
        exact ⟨List.mem_cons_of_mem y h1, h2⟩
      · rintro ⟨h1, h2⟩
        rcases List.mem_cons.mp h1 with rfl | h3
        · exact absurd hy h2
        · exact ⟨h3, h2⟩
    · rw [show dedup_aux seen (y :: rest) = y :: dedup_aux (y :: seen) rest from by
        simp [dedup_aux, hy]]
      constructor
      · intro h
        rcases List.mem_cons.mp h with rfl | h2
        · exact ⟨List.mem_cons_self x rest, hy⟩
        · have h3 := (ih (y :: seen) x).mp h2
          exact ⟨List.mem_cons_of_mem y h3.1,
            fun hs => h3.2 (List.mem_cons_of_mem y hs)⟩
      · rintro ⟨h1, h2⟩
        by_cases hxy : x = y
        · subst hxy
          exact List.mem_cons_self x _
        · rcases List.mem_cons.mp h1 with rfl | h3
          · exact absurd rfl hxy
          · refine List.mem_cons_of_mem y ((ih (y :: seen) x).mpr ⟨h3, fun hs => ?_⟩)
            rcases List.mem_cons.mp hs with rfl | hs2
            · exact hxy rfl
            · exact h2 hs2

theorem count_dedup_aux (l : List String) :
    ∀ (seen : List String) (x : String),
      (dedup_aux seen l).count x = if x ∈ l ∧ x ∉ seen then 1 else 0 := by
  induction l with
  | nil =>
    intro seen x
    simp [dedup_aux]
  | cons y rest ih =>
    intro seen x
    by_cases hy : y ∈ seen
    · rw [show dedup_aux seen (y :: rest) = dedup_aux seen rest from by
        simp [dedup_aux, hy]]
      rw [ih seen x]
      have hiff : (x ∈ rest ∧ x ∉ seen) ↔ (x ∈ y :: rest ∧ x ∉ seen) := by
        constructor
        · rintro ⟨h1, h2⟩
          exact ⟨List.mem_cons_of_mem y h1, h2⟩
        · rintro ⟨h1, h2⟩
          rcases List.mem_cons.mp h1 with rfl | h3
          · exact absurd hy h2
          · exact ⟨h3, h2⟩
      rw [if_congr hiff rfl rfl]
    · rw [show dedup_aux seen (y :: rest) = y :: dedup_aux (y :: seen) rest from by
        simp [dedup_aux, hy]]
      rw [List.count_cons, ih (y :: seen) x]
      by_cases hxy : x = y
      · subst hxy
        have h1 : ¬(x ∈ rest ∧ x ∉ x :: seen) :=
          fun hcon => hcon.2 (List.mem_cons_self x seen)
        have h2 : x ∈ x :: rest ∧ x ∉ seen := ⟨List.mem_cons_self x rest, hy⟩
        simp [h1, h2]
      · have h1 : (x ∈ rest ∧ x ∉ y :: seen) ↔ (x ∈ y :: rest ∧ x ∉ seen) := by
          constructor
          · rintro ⟨ha, hb⟩
            exact ⟨List.mem_cons_of_mem y ha,
              fun hs => hb (List.mem_cons_of_mem y hs)⟩
          · rintro ⟨ha, hb⟩
            rcases List.mem_cons.mp ha with rfl | ha2
            · exact absurd rfl hxy
            · refine ⟨ha2, fun hs => ?_⟩
              rcases List.mem_cons.mp hs with rfl | hs2
              · exact hxy rfl
              · exact hb hs2
        rw [if_congr h1 rfl rfl]
        simp [beq_iff_eq, hxy]
        exact fun he => hxy he.symm

theorem dedup_aux_sublist (l : List String) :
    ∀ seen : List String, List.Sublist (dedup_aux seen l) l := by
  induction l with
  | nil =>
    intro seen
    exact List.Sublist.refl []
  | cons y rest ih =>
    intro seen
    by_cases hy : y ∈ seen
    · rw [show dedup_aux seen (y :: rest) = dedup_aux seen rest from by
        simp [dedup_aux, hy]]
      exact List.Sublist.cons y (ih seen)
    · rw [show dedup_aux seen (y :: rest) = y :: dedup_aux (y :: seen) rest from by
        simp [dedup_aux, hy]]
      exact List.Sublist.cons₂ y (ih (y :: seen))

theorem firstIdx_cons_ne (y : String) (rest : List String) {x : String}
    (h : x ≠ y) : firstIdx (y :: rest) x = firstIdx rest x + 1 := by
  simp [firstIdx, h]

theorem pairwise_dedup_aux (l : List String) :
    ∀ seen : List String,
      (dedup_aux seen l).Pairwise (fun a b => firstIdx l a < firstIdx l b) := by
  induction l with
  | nil =>
    intro seen
    exact List.Pairwise.nil
  | cons y rest ih =>
    intro seen
    by_cases hy : y ∈ seen
    · rw [show dedup_aux seen (y :: rest) = dedup_aux seen rest from by
        simp [dedup_aux, hy]]
      refine (ih seen).imp_of_mem ?_
      intro a b ha hb hab
      have hane : a ≠ y := fun he =>
        ((mem_dedup_aux rest seen a).mp ha).2 (he ▸ hy)
      have hbne : b ≠ y := fun he =>
        ((mem_dedup_aux rest seen b).mp hb).2 (he ▸ hy)
      rw [firstIdx_cons_ne y rest hane, firstIdx_cons_ne y rest hbne]
      exact Nat.succ_lt_succ hab
    · rw [show dedup_aux seen (y :: rest) = y :: dedup_aux (y :: seen) rest from by
        simp [dedup_aux, hy]]
      refine List.pairwise_cons.mpr ⟨?_, ?_⟩
      · intro b hb
        have hbne : b ≠ y := fun he =>
          ((mem_dedup_aux rest (y :: seen) b).mp hb).2 (he ▸ List.mem_cons_self y seen)
        rw [show firstIdx (y :: rest) y = 0 from by simp [firstIdx],
          firstIdx_cons_ne y rest hbne]
        exact Nat.succ_pos (firstIdx rest b)
      · refine (ih (y :: seen)).imp_of_mem ?_
        intro a b ha hb hab
        have hane : a ≠ y := fun he =>
          ((mem_dedup_aux rest (y :: seen) a).mp ha).2 (he ▸ List.mem_cons_self y seen)
        have hbne : b ≠ y := fun he =>
          ((mem_dedup_aux rest (y :: seen) b).mp hb).2 (he ▸ List.mem_cons_self y seen)
        rw [firstIdx_cons_ne y rest hane, firstIdx_cons_ne y rest hbne]
        exact Nat.succ_lt_succ hab

theorem dedup_aux_snoc (l : List String) :
    ∀ (seen : List String) (m : String),
      dedup_aux seen (l ++ [m]) =
        dedup_aux seen l ++ (if m ∈ seen ∨ m ∈ l then [] else [m]) := by
  induction l with
  | nil =>
    intro seen m
    by_cases hm : m ∈ seen
    · simp [dedup_aux, hm]
    · simp [dedup_aux, hm]
  | cons y rest ih =>
    intro seen m
    by_cases hy : y ∈ seen
    · rw [show (y :: rest) ++ [m] = y :: (rest ++ [m]) from rfl]
      rw [show dedup_aux seen (y :: (rest ++ [m])) = dedup_aux seen (rest ++ [m]) from by
        simp [dedup_aux, hy]]
      rw [show dedup_aux seen (y :: rest) = dedup_aux seen rest from by
        simp [dedup_aux, hy]]
      rw [ih seen m]
      have hiff : (m ∈ seen ∨ m ∈ rest) ↔ (m ∈ seen ∨ m ∈ y :: rest) := by
        constructor
        · rintro (h | h)
          · exact Or.inl h
          · exact Or.inr (List.mem_cons_of_mem y h)
        · rintro (h | h)
          · exact Or.inl h
          · rcases List.mem_cons.mp h with rfl | h2
            · exact Or.inl hy
            · exact Or.inr h2
      rw [if_congr hiff rfl rfl]
    · rw [show (y :: rest) ++ [m] = y :: (rest ++ [m]) from rfl]
      rw [show dedup_aux seen (y :: (rest ++ [m])) =
          y :: dedup_aux (y :: seen) (rest ++ [m]) from by simp [dedup_aux, hy]]
      rw [show dedup_aux seen (y :: rest) = y :: dedup_aux (y :: seen) rest from by
        simp [dedup_aux, hy]]
      rw [ih (y :: seen) m]
      have hiff : (m ∈ y :: seen ∨ m ∈ rest) ↔ (m ∈ seen ∨ m ∈ y :: rest) := by
        constructor
        · rintro (h | h)
          · rcases List.mem_cons.mp h with rfl | h2
            · exact Or.inr (List.mem_cons_self m rest)
            · exact Or.inl h2
          · exact Or.inr (List.mem_cons_of_mem y h)
        · rintro (h | h)
          · exact Or.inl (List.mem_cons_of_mem y h)
          · rcases List.mem_cons.mp h with rfl | h2
            · exact Or.inl (List.mem_cons_self m seen)
            · exact Or.inr h2
      rw [if_congr hiff rfl rfl]
      simp [List.cons_append]

theorem submit_messages_append (msgs : List String) :
    ∀ hist : List String, submit_messages hist msgs = hist ++ msgs := by
  induction msgs with
  | nil =>
    intro hist
    simp [submit_messages]
  | cons m rest ih =>
    intro hist
    show submit_messages (add_to_input_history hist m) rest = _
    rw [ih (add_to_input_history hist m)]
    simp [add_to_input_history]

/-- C6: the visible input history is the raw submitted sequence
deduplicated preserving first-occurrence order — each distinct message
appears exactly once, earlier first occurrences come first, the visible
history is a subsequence of the raw one, submitting ["a","b","a","c"]
yields ["a","b","c"], and submitting one further chat message grows the
visible history exactly by that message when it is genuinely new and not
at all otherwise. -/
theorem C6_input_history_dedup (raw : List String) (x m : String)
    (msgs : List String) :
    ((dedup_input_history raw).count x = if x ∈ raw then 1 else 0) ∧
    (dedup_input_history raw).Pairwise (fun a b => firstIdx raw a < firstIdx raw b) ∧
    List.Sublist (dedup_input_history raw) raw ∧
    dedup_input_history ["a", "b", "a", "c"] = ["a", "b", "c"] ∧
    submit_messages raw msgs = raw ++ msgs ∧
    dedup_input_history (submit_messages raw [m]) =
      dedup_input_history raw ++ (if m ∈ raw then [] else [m]) := by
  refine ⟨?_, pairwise_dedup_aux raw [], dedup_aux_sublist raw [], by decide,
    submit_messages_append msgs raw, ?_⟩
  · rw [show dedup_input_history raw = dedup_aux [] raw from rfl,
      count_dedup_aux raw [] x]
    simp
  · rw [submit_messages_append [m] raw,
      show dedup_input_history (raw ++ [m]) = dedup_aux [] (raw ++ [m]) from rfl,
      dedup_aux_snoc raw [] m]
    simp [dedup_input_history]

/-- Witness for C10 at the /get_model route with an empty payload. -/
theorem C10_witness :
    ("/get_model" : String) ∈ ["/get_model", "/clear_chat_history",
      "/get_chat_history", "/get_file_list", "/commit"] ∧
    ((∃ msg, do_POST "/get_model" (Except.ok []) (fun _ _ => []) =
        Except.error (PyExn.typeError msg)) ∧
      ∀ resp, do_POST "/get_model" (Except.ok []) (fun _ _ => []) ≠ Except.ok resp) :=
  ⟨by decide, C10_selfonly_routes_typeerror "/get_model" (by decide) [] (fun _ _ => [])⟩

end Aider
